import Mathlib

/-!
Verification of the peer-matching and signaling-relay core of the
games-catalog repository (shared-networking).

The development shallowly embeds, faithfully to the JavaScript source:

* `local-server.js` — the relay server (connection table, single waiting
  slot, `handleFindMatch`, the `close` handler, `handleSignal`);
* `LocalGameConnection.js` — the WebRTC session wrapper (pending remote
  candidate queue, offer/answer/candidate handlers with their try/catch
  blocks, `send`, `close`);
* `WebSocketNetworkManager.js` / `LocalNetworkManager.js` — the network
  managers (buffering of signaling messages that arrive before the game
  connection exists, `connectToGame` replay, the localStorage leader
  election: `becomeHost` / `verifyHostStatus` / `checkHostStatus`, and the
  `join-request` / `join-accept` handling).

Mutable objects become explicit state records; every externally visible
effect (WebSocket sends, `socket.emit`, `scene.events.emit`, data-channel
sends, calls into the native WebRTC API) is recorded in a trace field so
that theorems can speak about exactly which I/O a code path performs.
Fallible native WebRTC primitives are abstracted as an environment `Env`
returning `Except`; the JavaScript `try`/`catch` blocks are translated as
explicit matches on those results.
-/

/-- Player role, `'A'` (initiator/host) or `'B'` (responder/guest). -/
inductive Role where
  | A
  | B
deriving DecidableEq, Repr

/-- The role opposite to the given one (`client.role === 'A' ? 'B' : 'A'`). -/
def Role.other : Role → Role
  | .A => .B
  | .B => .A

/-! ## Relay server (`local-server.js`) -/

/-- One entry of the server's `clients` map: `{ ws, id, role }`, later
extended in `handleFindMatch` with `isInitiator` and `opponentId`.
`wsOpen` models `ws.readyState === WebSocket.OPEN`. -/
structure SClient where
  id : String
  wsOpen : Bool
  role : Option Role
  isInitiator : Option Bool
  opponentId : Option String
deriving DecidableEq, Repr

/-- Messages the server sends to a client (`ws.send(JSON.stringify(...))`).
Constant fields (`roomId`, `iceServers`, log text) are omitted. -/
inductive SrvMsg where
  | clientId (cid : String)
  | waiting
  | matchFound (role : Role) (opponentId : String) (isInitiator : Bool)
  | peerDisconnected
  | signal (fromClient : String) (data : Nat)
deriving DecidableEq, Repr

/-- Relay server state: the `clients` insertion-ordered map, the single
`waitingClient` slot (by client id; the JS object reference always points
at the entry with that id for states reachable through the handlers
modelled here), and the trace of messages sent, as (recipient, message). -/
structure SrvState where
  clients : List SClient
  waiting : Option String
  sent : List (String × SrvMsg)
deriving DecidableEq, Repr

/-- `clients.get(clientId)` (insertion-ordered map keyed by `id`). -/
def SrvState.getClient (st : SrvState) (cid : String) : Option SClient :=
  st.clients.find? (fun c => c.id = cid)

/-- Apply `f` to the entry with id `cid` (mutation of the map entry in
place; positions are preserved, as for a JS `Map`). -/
def SrvState.updateClient (st : SrvState) (cid : String) (f : SClient → SClient) : SrvState :=
  { st with clients := st.clients.map (fun c => if c.id = cid then f c else c) }

/-- `clients.set(clientId, v)`: replace in place if the key exists,
otherwise append (JS `Map` keeps the original insertion position). -/
def mapSet (clients : List SClient) (v : SClient) : List SClient :=
  if clients.any (fun c => c.id = v.id) then
    clients.map (fun c => if c.id = v.id then v else c)
  else
    clients ++ [v]

/-- The `wss.on('connection')` handler: register the fresh client
(`{ ws, id, role: null }`) and send it its id. -/
def srvConnect (st : SrvState) (cid : String) : SrvState :=
  { st with
    clients := mapSet st.clients
      { id := cid, wsOpen := true, role := none, isInitiator := none, opponentId := none }
    sent := st.sent ++ [(cid, SrvMsg.clientId cid)] }

/-- `handleFindMatch` (guarded, as in `handleMessage`, by the caller being
in the `clients` map). If another client occupies the waiting slot, pair
the two (waiting = `'A'`/initiator, caller = `'B'`/responder), send both a
`match-found`, and clear the slot; otherwise the caller becomes the
waiting client and is sent `waiting`. -/
def handleFindMatch (st : SrvState) (cid : String) : SrvState :=
  match st.getClient cid with
  | none => st
  | some client =>
    match st.waiting with
    | some wid =>
      if wid ≠ cid then
        let st1 := st.updateClient wid (fun w =>
          { w with role := some Role.A, isInitiator := some true, opponentId := some cid })
        let st2 := st1.updateClient cid (fun c =>
          { c with role := some Role.B, isInitiator := some false, opponentId := some wid })
        let sendA :=
          match st.getClient wid with
          | some w => if w.wsOpen then [(wid, SrvMsg.matchFound Role.A cid true)] else []
          | none => []
        let sendB :=
          if client.wsOpen then [(cid, SrvMsg.matchFound Role.B wid false)] else []
        { st2 with waiting := none, sent := st2.sent ++ sendA ++ sendB }
      else
        { st with waiting := some cid
                  sent := st.sent ++ (if client.wsOpen then [(cid, SrvMsg.waiting)] else []) }
    | none =>
      { st with waiting := some cid
                sent := st.sent ++ (if client.wsOpen then [(cid, SrvMsg.waiting)] else []) }

/-- The `ws.on('close')` handler: clear the waiting slot if the
disconnecting client held it; if the client had a role, look up the first
client (in insertion order) holding the opposite *role* and, if its socket
is open, send it `peer-disconnected`; finally delete the client. -/
def handleClose (st : SrvState) (cid : String) : SrvState :=
  let st1 := if st.waiting = some cid then { st with waiting := none } else st
  let notif :=
    match st1.getClient cid with
    | some client =>
      match client.role with
      | some r =>
        match st1.clients.find? (fun c => c.role = some r.other) with
        | some oc => if oc.wsOpen then [(oc.id, SrvMsg.peerDisconnected)] else []
        | none => []
      | none => []
    | none => []
  { st1 with clients := st1.clients.filter (fun c => c.id ≠ cid)
             sent := st1.sent ++ notif }

/-- `handleSignal`: forward the payload verbatim to the caller's recorded
opponent if that opponent is connected and open, else drop it. -/
def handleSignal (st : SrvState) (cid : String) (payload : Nat) : SrvState :=
  match st.getClient cid with
  | none => st
  | some client =>
    match client.opponentId with
    | none => st
    | some oid =>
      match st.clients.find? (fun c => c.id = oid) with
      | some opp =>
        if opp.wsOpen then { st with sent := st.sent ++ [(oid, SrvMsg.signal cid payload)] }
        else st
      | none => st

/-- The actions driving the relay server. -/
inductive SAct where
  | connect (cid : String)
  | findMatch (cid : String)
  | close (cid : String)
  | signal (cid : String) (payload : Nat)

/-- One server step. -/
def stepSrv (st : SrvState) : SAct → SrvState
  | .connect cid => srvConnect st cid
  | .findMatch cid => handleFindMatch st cid
  | .close cid => handleClose st cid
  | .signal cid p => handleSignal st cid p

/-- The empty initial server state. -/
def srvInit : SrvState := { clients := [], waiting := none, sent := [] }

/-- Server states reachable from the initial state through the handlers. -/
inductive SrvReachable : SrvState → Prop where
  | init : SrvReachable srvInit
  | step {st : SrvState} (a : SAct) : SrvReachable st → SrvReachable (stepSrv st a)

/-- Run a list of actions from a state. -/
def runSrv (st : SrvState) (as : List SAct) : SrvState :=
  as.foldl stepSrv st

/-! ## WebRTC session wrapper (`LocalGameConnection.js`) -/

/-- SDP description kind. -/
inductive DescType where
  | offer
  | answer
deriving DecidableEq, Repr

/-- An SDP session description, opaque to this layer apart from its type
(`remoteDescription.type` is inspected by `handleCandidate`). -/
structure SDesc where
  ty : DescType
  payload : Nat
deriving DecidableEq, Repr

/-- An ICE candidate descriptor, opaque to this layer. -/
abbrev Cand := Nat

/-- `RTCDataChannel.readyState` (the string `'open'` is the constructor
`opened`). -/
inductive ChanState where
  | connecting
  | opened
  | closing
  | closed
deriving DecidableEq, Repr

/-- A data channel: label, ready state, and the trace of payloads pushed
through `channel.send`. -/
structure Channel where
  label : String
  readyState : ChanState
  sentData : List Nat
deriving DecidableEq, Repr

/-- A call into a fallible native WebRTC primitive. One entry is recorded
per call, whether or not the call succeeds; `addIce c` records
`peerConnection.addIceCandidate` being invoked on candidate `c`, i.e. the
candidate being applied. -/
inductive Attempt where
  | createOffer
  | createAnswer
  | setLocalDesc
  | setRemoteDesc
  | addIce (c : Cand)
deriving DecidableEq, Repr

/-- A signaling message emitted through `this.socket.emit`. -/
inductive OutMsg where
  | offer (d : SDesc) (toPeer : Option String)
  | answer (d : SDesc) (toPeer : Option String)
  | iceCandidate (c : Cand) (toPeer : Option String)
deriving DecidableEq, Repr

/-- A game-facing event emitted through `this.eventEmitter.emit`. -/
inductive GEvent where
  | connectionEstablished
  | connectionLost
  | datachannelOpen
  | dataReceived (d : Nat) (label : String)
  | matchFound (opponentId : String)
deriving DecidableEq, Repr

/-- The state of one `LocalGameConnection`. `pcPresent` models
`this.peerConnection !== null`, `signalingClosed` models
`peerConnection.signalingState === 'closed'`; `sent`, `attempts` and
`eventsEmitted` are effect traces. -/
structure ConnState where
  pcPresent : Bool
  signalingClosed : Bool
  remoteDescription : Option SDesc
  localDescription : Option SDesc
  pendingRemoteCandidates : List Cand
  reliable : Option Channel
  unreliable : Option Channel
  isConnected : Bool
  isInitiator : Bool
  opponentId : Option String
  sent : List OutMsg
  attempts : List Attempt
  eventsEmitted : List GEvent
deriving DecidableEq, Repr

/-- Outcomes of the native WebRTC primitives: any call may reject, which
surfaces as a thrown error at the corresponding `await`. -/
structure Env where
  createOffer : Except Unit SDesc
  createAnswer : Except Unit SDesc
  setLocalDescription : SDesc → Except Unit Unit
  setRemoteDescription : SDesc → Except Unit Unit
  addIceCandidate : Cand → Except Unit Unit

/-- The `while` loop of `flushPendingRemoteCandidates`: shift the head off
the queue and apply it; a failure of `addIceCandidate` is caught by the
per-candidate `try`/`catch` and the loop continues. The list argument is
the queue being drained (always equal to `pendingRemoteCandidates` at the
call). -/
def flushGo (env : Env) : List Cand → ConnState → ConnState
  | [], s => s
  | c :: rest, s =>
    let s1 := { s with pendingRemoteCandidates := rest
                       attempts := s.attempts ++ [Attempt.addIce c] }
    match env.addIceCandidate c with
    | .ok _ => flushGo env rest s1
    | .error _ => flushGo env rest s1

/-- `flushPendingRemoteCandidates`: no-op unless the peer connection
exists and a remote description is set; otherwise drain the whole queue in
FIFO order. -/
def flushPendingRemoteCandidates (env : Env) (s : ConnState) : ConnState :=
  if s.pcPresent = false || s.remoteDescription.isNone then s
  else flushGo env s.pendingRemoteCandidates s

/-- Body of the `try` block of `handleCandidate`; the second component is
the exception reaching the `catch`, if any. -/
def handleCandidateB (env : Env) (s : ConnState) (c : Cand) : ConnState × Option Unit :=
  if s.pcPresent = false || s.signalingClosed then (s, none)
  else if s.remoteDescription.isNone then
    ({ s with pendingRemoteCandidates := s.pendingRemoteCandidates ++ [c] }, none)
  else
    let s1 := { s with attempts := s.attempts ++ [Attempt.addIce c] }
    match env.addIceCandidate c with
    | .ok _ => (s1, none)
    | .error e => (s1, some e)

/-- `handleCandidate`: the surrounding `try`/`catch` logs any error and
returns normally with the state as of the failure point. -/
def handleCandidate (env : Env) (s : ConnState) (c : Cand) : ConnState :=
  (handleCandidateB env s c).1

/-- Body of the `try` block of `handleOffer` (after the
`!this.peerConnection` guard): set the remote description, produce and
install the local answer, send it, then flush the candidate queue. -/
def handleOfferB (env : Env) (s : ConnState) (d : SDesc) : ConnState × Option Unit :=
  let s1 := { s with attempts := s.attempts ++ [Attempt.setRemoteDesc] }
  match env.setRemoteDescription d with
  | .error e => (s1, some e)
  | .ok _ =>
    let s2 := { s1 with remoteDescription := some d }
    let s3 := { s2 with attempts := s2.attempts ++ [Attempt.createAnswer] }
    match env.createAnswer with
    | .error e => (s3, some e)
    | .ok ans =>
      let s4 := { s3 with attempts := s3.attempts ++ [Attempt.setLocalDesc] }
      match env.setLocalDescription ans with
      | .error e => (s4, some e)
      | .ok _ =>
        let s5 := { s4 with localDescription := some ans
                            sent := s4.sent ++ [OutMsg.answer ans s4.opponentId] }
        (flushPendingRemoteCandidates env s5, none)

/-- `handleOffer`: early return when the peer connection is missing; the
`try`/`catch` swallows any error from the body. -/
def handleOffer (env : Env) (s : ConnState) (d : SDesc) : ConnState :=
  if s.pcPresent then (handleOfferB env s d).1 else s

/-- Body of the `try` block of `handleAnswer`. There is no null guard in
the source: reading `setRemoteDescription` off a null `peerConnection`
throws inside the `try`, so that case surfaces as a caught exception. -/
def handleAnswerB (env : Env) (s : ConnState) (d : SDesc) : ConnState × Option Unit :=
  if s.pcPresent then
    let s1 := { s with attempts := s.attempts ++ [Attempt.setRemoteDesc] }
    match env.setRemoteDescription d with
    | .error e => (s1, some e)
    | .ok _ =>
      let s2 := { s1 with remoteDescription := some d }
      (flushPendingRemoteCandidates env s2, none)
  else (s, some ())

/-- `handleAnswer`: the `try`/`catch` logs any error and returns normally
with the state as of the failure point. -/
def handleAnswer (env : Env) (s : ConnState) (d : SDesc) : ConnState :=
  (handleAnswerB env s d).1

/-- Body of the `try` block of `createAndSendOffer`. -/
def createAndSendOfferB (env : Env) (s : ConnState) : ConnState × Option Unit :=
  let s1 := { s with attempts := s.attempts ++ [Attempt.createOffer] }
  match env.createOffer with
  | .error e => (s1, some e)
  | .ok off =>
    let s2 := { s1 with attempts := s1.attempts ++ [Attempt.setLocalDesc] }
    match env.setLocalDescription off with
    | .error e => (s2, some e)
    | .ok _ =>
      ({ s2 with localDescription := some off
                 sent := s2.sent ++ [OutMsg.offer off s2.opponentId] }, none)

/-- `createAndSendOffer`: the `try`/`catch` logs any error and returns
normally with the state as of the failure point. -/
def createAndSendOffer (env : Env) (s : ConnState) : ConnState :=
  (createAndSendOfferB env s).1

/-- `send(data, reliable)`: select the channel by the `reliable` flag;
push the payload and return `true` only when the selected channel exists
and its `readyState` is `'open'`; otherwise log a warning and return
`false`. -/
def ConnState.send (s : ConnState) (data : Nat) (reliable : Bool) : Bool × ConnState :=
  if reliable then
    match s.reliable with
    | some ch =>
      if ch.readyState = ChanState.opened then
        (true, { s with reliable := some { ch with sentData := ch.sentData ++ [data] } })
      else (false, s)
    | none => (false, s)
  else
    match s.unreliable with
    | some ch =>
      if ch.readyState = ChanState.opened then
        (true, { s with unreliable := some { ch with sentData := ch.sentData ++ [data] } })
      else (false, s)
    | none => (false, s)

/-- `channel.close()` on a possibly-absent channel; closing an
already-closed `RTCDataChannel` is a no-op. -/
def closeChannel : Option Channel → Option Channel
  | none => none
  | some ch => some { ch with readyState := ChanState.closed }

/-- `close()`: close both data channels (if present) and the peer
connection (if present; `RTCPeerConnection.close()` drives
`signalingState` to `'closed'`), and reset the connected flag. No event
is emitted. -/
def ConnState.close (s : ConnState) : ConnState :=
  { s with reliable := closeChannel s.reliable
           unreliable := closeChannel s.unreliable
           signalingClosed := s.signalingClosed || s.pcPresent
           isConnected := false }

/-- A just-constructed `LocalGameConnection` (constructor field values). -/
def initialConnState : ConnState :=
  { pcPresent := false, signalingClosed := false, remoteDescription := none
    localDescription := none, pendingRemoteCandidates := [], reliable := none
    unreliable := none, isConnected := false, isInitiator := false
    opponentId := none, sent := [], attempts := [], eventsEmitted := [] }

/-- A channel freshly returned by `createDataChannel` (not yet open). -/
def freshChannel (label : String) : Channel :=
  { label := label, readyState := ChanState.connecting, sentData := [] }

/-- `initialize` + `createPeerConnection`: record config, create the peer
connection; the initiator additionally creates the two data channels and
produces and sends its offer, the responder only registers the
`ondatachannel` receiver. -/
def initializeConn (env : Env) (isInit : Bool) (opp : String) : ConnState :=
  let s0 := { initialConnState with pcPresent := true, isInitiator := isInit
                                    opponentId := some opp }
  if isInit then
    let s1 := { s0 with reliable := some (freshChannel "game_reliable")
                        unreliable := some (freshChannel "game_unreliable") }
    createAndSendOffer env s1
  else s0

/-- An environment in which every native primitive succeeds (error-free
negotiation); the produced descriptions are fixed opaque blobs. -/
def okEnv : Env :=
  { createOffer := Except.ok { ty := DescType.offer, payload := 0 }
    createAnswer := Except.ok { ty := DescType.answer, payload := 1 }
    setLocalDescription := fun _ => Except.ok ()
    setRemoteDescription := fun _ => Except.ok ()
    addIceCandidate := fun _ => Except.ok () }

/-- Inbound session-negotiation events, as dispatched to the connection by
the network manager. -/
inductive CEv where
  | cand (c : Cand)
  | offer (d : SDesc)
  | answer (d : SDesc)

/-- Dispatch one inbound event to the corresponding handler. -/
def connStep (env : Env) (s : ConnState) : CEv → ConnState
  | .cand c => handleCandidate env s c
  | .offer d => handleOffer env s d
  | .answer d => handleAnswer env s d

/-- Run a sequence of inbound events. -/
def connRun (env : Env) (s : ConnState) (evs : List CEv) : ConnState :=
  evs.foldl (connStep env) s

/-- The candidate applied by an attempt, if it is an `addIceCandidate`
call. -/
def attemptCand : Attempt → Option Cand
  | .addIce c => some c
  | _ => none

/-- The candidates a connection has applied (passed to
`addIceCandidate`), in application order, read off the attempt trace. -/
def appliedOf (s : ConnState) : List Cand :=
  s.attempts.filterMap attemptCand

/-! ## Network manager: signal buffering and replay
(`WebSocketNetworkManager.js`; the `handleSignalingMessage` signal cases
and `connectToGame` are identical in `LocalNetworkManager.js`) -/

/-- A relayed signaling payload, by its `type` tag. -/
inductive Sig where
  | offer (d : SDesc)
  | answer (d : SDesc)
  | iceCandidate (c : Cand)

/-- The manager state relevant to signal buffering and replay. -/
structure NetMgr where
  gameConnection : Option ConnState
  pendingOffer : Option SDesc
  pendingCandidates : List Cand
  isInitiator : Bool
  opponentId : Option String
deriving DecidableEq, Repr

/-- The `offer` / `answer` / `ice-candidate` cases of
`handleSignalingMessage`: forward to the game connection when it exists;
otherwise buffer an offer in `pendingOffer`, append a candidate to
`pendingCandidates`, and fall through (drop) for an answer. -/
def mgrHandleSignal (env : Env) (m : NetMgr) : Sig → NetMgr
  | .offer d =>
    match m.gameConnection with
    | some gc => { m with gameConnection := some (handleOffer env gc d) }
    | none => { m with pendingOffer := some d }
  | .answer d =>
    match m.gameConnection with
    | some gc => { m with gameConnection := some (handleAnswer env gc d) }
    | none => m
  | .iceCandidate c =>
    match m.gameConnection with
    | some gc => { m with gameConnection := some (handleCandidate env gc c) }
    | none => { m with pendingCandidates := m.pendingCandidates ++ [c] }

/-- `this.gameConnection && this.gameConnection.isConnected`. -/
def gcIsConnected (m : NetMgr) : Bool :=
  match m.gameConnection with
  | some gc => gc.isConnected
  | none => false

/-- `connectToGame`: abort without an opponent; skip when already
connected; otherwise build a fresh `LocalGameConnection` (the previous
one, if any, is closed and discarded by `initializeGameConnection`), then
replay the buffered offer (responder only, clearing it) and every buffered
ICE candidate (clearing the buffer). -/
def connectToGame (env : Env) (m : NetMgr) : NetMgr :=
  match m.opponentId with
  | none => m
  | some opp =>
    if gcIsConnected m then m
    else
      let gc0 := initializeConn env m.isInitiator opp
      let step1 : ConnState × Option SDesc :=
        match m.pendingOffer, m.isInitiator with
        | some d, false => (handleOffer env gc0 d, none)
        | po, _ => (gc0, po)
      let gc2 := m.pendingCandidates.foldl (fun g c => handleCandidate env g c) step1.1
      { m with gameConnection := some gc2, pendingOffer := step1.2, pendingCandidates := [] }

/-! ## localStorage leader election (`LocalNetworkManager.js`) -/

/-- One registration in the `'local-game-peers'` localStorage list.
Hosts are pushed as `{ id, active, timestamp, role:'A',
lookingForMatch:true }`, guests as `{ id, active, timestamp, role:'B',
matchedWith }` (their absent `lookingForMatch` is falsy). -/
structure Peer where
  id : String
  active : Bool
  timestamp : Nat
  role : Role
  lookingForMatch : Bool
  matchedWith : Option String
deriving DecidableEq, Repr

/-- A signaling message emitted via `emitSignalingMessage`
(localStorage broadcast), with sender and target peer ids. -/
inductive SigMsg where
  | joinRequest (fromPeer toPeer : String)
  | joinAccept (fromPeer toPeer : String)
deriving DecidableEq, Repr

/-- The matchmaking-relevant state of one `LocalNetworkManager`.
`hostPolling` models whether `hostPollingInterval` is armed; `signalsSent`
and `events` are effect traces (`emitSignalingMessage`,
`scene.events.emit`). -/
structure LMgr where
  peerId : String
  role : Option Role
  isInitiator : Bool
  opponentId : Option String
  matchmakingComplete : Bool
  hostPolling : Bool
  signalsSent : List SigMsg
  events : List GEvent
deriving DecidableEq, Repr

/-- `peers.filter(p => p.active && (now - p.timestamp) < 10000)`. -/
def activePeersOf (now : Nat) (ps : List Peer) : List Peer :=
  ps.filter (fun p => p.active && decide (now - p.timestamp < 10000))

/-- `activePeers.filter(p => p.role === 'A' && p.lookingForMatch)` — the
host filter used by `verifyHostStatus`. -/
def lookingHosts (now : Nat) (ps : List Peer) : List Peer :=
  (activePeersOf now ps).filter (fun p => (p.role == Role.A) && p.lookingForMatch)

/-- `activePeers.filter(p => p.role === 'A')` — the host filter used by
`checkHostStatus` (no `lookingForMatch` condition). -/
def activeHostsA (now : Nat) (ps : List Peer) : List Peer :=
  (activePeersOf now ps).filter (fun p => p.role == Role.A)

/-- Comparator fold step: keep the earlier-registered peer, preferring the
left (earlier-in-list) one on timestamp ties. -/
def earlierPeer (p q : Peer) : Peer :=
  if q.timestamp < p.timestamp then q else p

/-- `allHosts.sort((a, b) => a.timestamp - b.timestamp)[0]`:
`Array.prototype.sort` is stable, so the head of the sorted array is the
first list element with minimal timestamp, computed here by a fold. -/
def earliestHost : List Peer → Option Peer
  | [] => none
  | p :: ps => some (ps.foldl earlierPeer p)

/-- The guest registration pushed by `switchToGuest` / `joinAsGuest`. -/
def guestPeer (cid : String) (now : Nat) (hostId : String) : Peer :=
  { id := cid, active := true, timestamp := now, role := Role.B
    lookingForMatch := false, matchedWith := some hostId }

/-- The host registration pushed by `becomeHost`. -/
def hostPeer (cid : String) (now : Nat) : Peer :=
  { id := cid, active := true, timestamp := now, role := Role.A
    lookingForMatch := true, matchedWith := none }

/-- `switchToGuest(host)`: drop our own registration, append a guest
registration matched with the host, take role `'B'`, record the host as
opponent, and send it a `join-request`. -/
def switchToGuest (now : Nat) (m : LMgr) (store : List Peer) (host : Peer) : LMgr × List Peer :=
  let store2 := store.filter (fun p => p.id ≠ m.peerId) ++ [guestPeer m.peerId now host.id]
  let m1 := { m with role := some Role.B, isInitiator := false, opponentId := some host.id }
  let m2 := { m1 with signalsSent := m1.signalsSent ++ [SigMsg.joinRequest m.peerId host.id] }
  (m2, store2)

/-- `verifyHostStatus`: re-read the active looking hosts; if more than one
exists and the earliest-registered one is not us, switch to guest and join
it; otherwise we are confirmed as host and start polling
(`startHostPolling`). -/
def verifyHostStatus (now : Nat) (m : LMgr) (store : List Peer) : LMgr × List Peer :=
  let allHosts := lookingHosts now store
  match earliestHost allHosts with
  | some h =>
    if 1 < allHosts.length ∧ h.id ≠ m.peerId then switchToGuest now m store h
    else ({ m with hostPolling := true }, store)
  | none => ({ m with hostPolling := true }, store)

/-- `checkHostStatus` (the 200 ms polling body): stop polling once
matchmaking completed; otherwise, among all active `'A'` peers, if there
is an earlier one than us, stop polling, drop our registration, switch to
guest (recording the earliest as opponent, sending it a `join-request`)
and re-register as its guest. -/
def checkHostStatus (now : Nat) (m : LMgr) (store : List Peer) : LMgr × List Peer :=
  if m.matchmakingComplete then ({ m with hostPolling := false }, store)
  else
    let allHosts := activeHostsA now store
    match earliestHost allHosts with
    | some h =>
      if 1 < allHosts.length ∧ h.id ≠ m.peerId then
        let store2 := store.filter (fun p => p.id ≠ m.peerId) ++ [guestPeer m.peerId now h.id]
        let m1 := { m with hostPolling := false, role := some Role.B, isInitiator := false
                           opponentId := some h.id }
        let m2 := { m1 with signalsSent := m1.signalsSent ++ [SigMsg.joinRequest m.peerId h.id] }
        (m2, store2)
      else (m, store)
    | none => (m, store)

/-- One serialized verification round: each racing registered host runs
its scheduled `verifyHostStatus` against the shared store in turn (the
browser storage medium serializes the read-modify-write sequences; the
order of the managers is arbitrary). -/
def settleRound (now : Nat) : List LMgr → List Peer → List LMgr × List Peer
  | [], store => ([], store)
  | m :: ms, store =>
    let r := verifyHostStatus now m store
    let rest := settleRound now ms r.2
    (r.1 :: rest.1, rest.2)

/-- Update the first registration with the given id (JS `findIndex` +
in-place field assignment). -/
def updateFirst (pid : String) (f : Peer → Peer) : List Peer → List Peer
  | [] => []
  | p :: rest => if p.id = pid then f p :: rest else p :: updateFirst pid f rest

/-- `updatePeerStatus(lookingForMatch)`: refresh our registration's
`lookingForMatch` flag and timestamp, if present. -/
def updatePeerStatus (now : Nat) (m : LMgr) (looking : Bool) (store : List Peer) : List Peer :=
  updateFirst m.peerId (fun p => { p with lookingForMatch := looking, timestamp := now }) store

/-- `emitMatchFound()`: emit the `match_found` scene event (payload
reduced to the opponent identity; the remaining fields are constants or
copies of manager fields). -/
def emitMatchFoundEvent (m : LMgr) : LMgr :=
  { m with events := m.events ++ [GEvent.matchFound (m.opponentId.getD "")] }

/-- The `join-request` / `join-accept` messages handled by
`LocalNetworkManager.handleSignalingMessage`. -/
inductive JoinMsg where
  | joinRequest (fromPeer : String)
  | joinAccept (fromPeer : String)

/-- The `join-request` and `join-accept` cases of
`handleSignalingMessage`: an unmatched, still-looking host accepts a
request (records the opponent, completes, marks itself not looking in the
store, replies `join-accept`, emits `match_found`); a guest whose pending
host replies `join-accept` completes and emits `match_found`. All other
situations fall through with no state change and no emission. -/
def handleJoinMessage (now : Nat) (m : LMgr) (store : List Peer) : JoinMsg → LMgr × List Peer
  | .joinRequest fromPeer =>
    if m.role = some Role.A ∧ m.opponentId = none ∧ m.matchmakingComplete = false then
      let m1 := { m with opponentId := some fromPeer, matchmakingComplete := true }
      let store1 := updatePeerStatus now m1 false store
      let m2 := { m1 with signalsSent := m1.signalsSent ++ [SigMsg.joinAccept m.peerId fromPeer] }
      (emitMatchFoundEvent m2, store1)
    else (m, store)
  | .joinAccept fromPeer =>
    if m.role = some Role.B ∧ m.opponentId = some fromPeer ∧ m.matchmakingComplete = false then
      (emitMatchFoundEvent { m with matchmakingComplete := true }, store)
    else (m, store)

/-- The per-manager outcome of a settled verification round won by `w`:
the winner starts polling and keeps its state, every other racing host
demotes itself to responder, records `w` as opponent and sends it a
`join-request`. -/
def c1Outcome (w : Peer) (m : LMgr) : LMgr :=
  if m.peerId = w.id then { m with hostPolling := true }
  else { m with role := some Role.B, isInitiator := false, opponentId := some w.id
                signalsSent := m.signalsSent ++ [SigMsg.joinRequest m.peerId w.id] }

/-! ## Auxiliary definitions for the specifications -/

/-- `const channel = reliable ? this.dataChannels.reliable :
this.dataChannels.unreliable` — the channel `send` targets. -/
def selectedChannel (s : ConnState) (reliable : Bool) : Option Channel :=
  if reliable then s.reliable else s.unreliable

/-- Structural invariant of the relay server: client ids are unique, the
waiting slot (when occupied) refers to a connected client, and no client
records itself as its own opponent. -/
def SrvInv (st : SrvState) : Prop :=
  (st.clients.map SClient.id).Nodup ∧
  (∀ wid, st.waiting = some wid → wid ∈ st.clients.map SClient.id) ∧
  (∀ c ∈ st.clients, c.opponentId ≠ some c.id)

/-- An environment in which every native primitive rejects. -/
def errEnv : Env :=
  { createOffer := Except.error ()
    createAnswer := Except.error ()
    setLocalDescription := fun _ => Except.error ()
    setRemoteDescription := fun _ => Except.error ()
    addIceCandidate := fun _ => Except.error () }

/-- Four clients connect and each requests a match, in order: p1/p2 become
the first pair, p3/p4 the second. -/
def c4State : SrvState :=
  runSrv srvInit
    [SAct.connect "p1", SAct.connect "p2", SAct.connect "p3", SAct.connect "p4",
     SAct.findMatch "p1", SAct.findMatch "p2", SAct.findMatch "p3", SAct.findMatch "p4"]

/-- p1 and p2 connect, p1 requests a match and is waiting, p3 and p4
connect, p2 requests and pairs with p1, p3 requests and is waiting. -/
def exSrvFifo : SrvState :=
  runSrv srvInit
    [SAct.connect "p1", SAct.connect "p2", SAct.connect "p3", SAct.connect "p4",
     SAct.findMatch "p1", SAct.findMatch "p2", SAct.findMatch "p3"]

/-- A single client connected and waiting. -/
def exSrvWaiting : SrvState :=
  runSrv srvInit [SAct.connect "p1", SAct.findMatch "p1"]

/-- A session whose reliable channel is open. -/
def exConnOpen : ConnState :=
  { initialConnState with
    reliable := some { label := "game_reliable", readyState := ChanState.opened, sentData := [] } }

/-- A responder session with a remote description already installed. -/
def exConnRd : ConnState :=
  { initialConnState with pcPresent := true
                          remoteDescription := some { ty := DescType.offer, payload := 5 } }

/-- A host manager that has already completed matchmaking with guest
`"guestA"`. -/
def exMgrMatched : LMgr :=
  { peerId := "host1", role := some Role.A, isInitiator := true, opponentId := some "guestA"
    matchmakingComplete := true, hostPolling := false, signalsSent := [], events := [] }

/-- A responder-side manager with no game connection yet. -/
def exNetMgr : NetMgr :=
  { gameConnection := none, pendingOffer := none, pendingCandidates := []
    isInitiator := false, opponentId := some "opp1" }

/-- Two hosts racing: both registered as looking hosts, `"pa"` earlier. -/
def exStore : List Peer := [hostPeer "pa" 100, hostPeer "pb" 200]

/-- The manager of racing host `"pa"`. -/
def exMgrA : LMgr :=
  { peerId := "pa", role := some Role.A, isInitiator := true, opponentId := none
    matchmakingComplete := false, hostPolling := false, signalsSent := [], events := [] }

/-- The manager of racing host `"pb"`. -/
def exMgrB : LMgr :=
  { peerId := "pb", role := some Role.A, isInitiator := true, opponentId := none
    matchmakingComplete := false, hostPolling := false, signalsSent := [], events := [] }

/-! ## Theorems -/

/-- C6: `close()` is idempotent — closing an already-closed session
produces exactly the same observable end state (both channels and the
peer session torn down, `isConnected` false), and neither invocation
emits any event (in particular no duplicate disconnected event) nor
raises an error. -/
theorem close_idempotent (s : ConnState) :
    s.close.close = s.close ∧ s.close.isConnected = false ∧
      s.close.eventsEmitted = s.eventsEmitted ∧
      s.close.reliable = closeChannel s.reliable ∧
      s.close.unreliable = closeChannel s.unreliable := by
  obtain ⟨pc, sc, rd, ld, pend, rel, unrel, ic, ii, opp, snt, att, ev⟩ := s
  refine ⟨?_, rfl, rfl, rfl, rfl⟩
  cases rel <;> cases unrel <;> cases pc <;> cases sc <;>
    simp [ConnState.close, closeChannel]

/-- C5: `send(payload, reliable)` targets the channel selected by the
`reliable` flag, returns `true` exactly when that channel exists and its
ready state is open (in which case the payload is pushed onto that
channel and nothing else changes), and on `false` performs no I/O,
buffers nothing and leaves the session untouched. -/
theorem send_spec (s : ConnState) (data : Nat) (r : Bool) :
    ((s.send data r).1 = true ↔
      ∃ ch, selectedChannel s r = some ch ∧ ch.readyState = ChanState.opened) ∧
    ((s.send data r).1 = false → (s.send data r).2 = s) ∧
    (∀ ch, selectedChannel s r = some ch → ch.readyState = ChanState.opened →
      (s.send data r).2 =
        (if r then { s with reliable := some { ch with sentData := ch.sentData ++ [data] } }
         else { s with unreliable := some { ch with sentData := ch.sentData ++ [data] } })) := by
  cases r
  · cases hu : s.unreliable with
    | none => simp [ConnState.send, selectedChannel, hu]
    | some ch =>
      by_cases ho : ch.readyState = ChanState.opened <;>
        simp [ConnState.send, selectedChannel, hu, ho]
  · cases hr : s.reliable with
    | none => simp [ConnState.send, selectedChannel, hr]
    | some ch =>
      by_cases ho : ch.readyState = ChanState.opened <;>
        simp [ConnState.send, selectedChannel, hr, ho]

/-- C5 witness: on a session whose reliable channel is open, a reliable
send succeeds and pushes the payload; an unreliable send (no unreliable
channel) fails and leaves the session unchanged. -/
theorem send_spec_witness :
    (exConnOpen.send 7 true).1 = true ∧ (exConnOpen.send 7 false).2 = exConnOpen :=
  ⟨(send_spec exConnOpen 7 true).1.mpr
      ⟨{ label := "game_reliable", readyState := ChanState.opened, sentData := [] }, rfl, rfl⟩,
    (send_spec exConnOpen 7 false).2.1 rfl⟩

/-- C7: once a participant's matchmaking is complete, any further
`join-request` or `join-accept` message is ignored: the manager state
(role, opponent, completion flag), the shared registry and both effect
traces are unchanged, and no event is emitted. -/
theorem matched_join_guard (now : Nat) (m : LMgr) (store : List Peer) (msg : JoinMsg)
    (h : m.matchmakingComplete = true) :
    handleJoinMessage now m store msg = (m, store) := by
  cases msg <;> simp [handleJoinMessage, h]

/-- C7 witness: a `join-request` from a second guest arriving at a host
already matched with a different responder is ignored — no state change,
no event. -/
theorem matched_join_guard_witness :
    handleJoinMessage 500 exMgrMatched [hostPeer "host1" 90] (JoinMsg.joinRequest "guestB") =
      (exMgrMatched, [hostPeer "host1" 90]) :=
  matched_join_guard 500 exMgrMatched [hostPeer "host1" 90] (JoinMsg.joinRequest "guestB") rfl

/-- C10: before the game connection exists, the network managers treat
signal kinds asymmetrically — an offer is stored in `pendingOffer`, an
ice-candidate is appended to `pendingCandidates`, but an answer is
silently discarded (the state is exactly unchanged, so it can never be
replayed); `connectToGame` then replays the buffered offer (responder)
followed by the buffered candidates, clearing both buffers. -/
theorem prejoin_signal_asymmetry (env : Env) (m : NetMgr) (d : SDesc) (c : Cand) (opp : String)
    (h : m.gameConnection = none) :
    mgrHandleSignal env m (Sig.offer d) = { m with pendingOffer := some d } ∧
    mgrHandleSignal env m (Sig.iceCandidate c) =
      { m with pendingCandidates := m.pendingCandidates ++ [c] } ∧
    mgrHandleSignal env m (Sig.answer d) = m ∧
    (∀ cs : List Cand,
      connectToGame env
        { m with gameConnection := none, pendingOffer := some d, pendingCandidates := cs
                 isInitiator := false, opponentId := some opp } =
      { m with
        gameConnection := some (cs.foldl (fun g c2 => handleCandidate env g c2)
          (handleOffer env (initializeConn env false opp) d))
        pendingOffer := none, pendingCandidates := [], isInitiator := false
        opponentId := some opp }) := by
  refine ⟨?_, ?_, ?_, ?_⟩
  · simp [mgrHandleSignal, h]
  · simp [mgrHandleSignal, h]
  · simp [mgrHandleSignal, h]
  · intro cs
    simp [connectToGame, gcIsConnected]

/-- C10 witness: on a fresh responder-side manager, an answer is dropped,
an offer and a candidate are buffered, and `connectToGame` replays the
buffered offer and candidate. -/
theorem prejoin_signal_asymmetry_witness :
    mgrHandleSignal okEnv exNetMgr (Sig.answer { ty := DescType.answer, payload := 3 }) =
      exNetMgr ∧
    mgrHandleSignal okEnv exNetMgr (Sig.offer { ty := DescType.offer, payload := 2 }) =
      { exNetMgr with pendingOffer := some { ty := DescType.offer, payload := 2 } } ∧
    mgrHandleSignal okEnv exNetMgr (Sig.iceCandidate 9) =
      { exNetMgr with pendingCandidates := [9] } ∧
    connectToGame okEnv
      { exNetMgr with pendingOffer := some { ty := DescType.offer, payload := 2 }
                      pendingCandidates := [9] } =
      { exNetMgr with
        gameConnection := some (handleCandidate okEnv
          (handleOffer okEnv (initializeConn okEnv false "opp1")
            { ty := DescType.offer, payload := 2 }) 9)
        pendingOffer := none, pendingCandidates := [] } := by
  obtain ⟨h1, h2, h3, h4⟩ :=
    prejoin_signal_asymmetry okEnv exNetMgr { ty := DescType.offer, payload := 2 } 9 "opp1" rfl
  refine ⟨?_, h1, h2, ?_⟩
  · exact (prejoin_signal_asymmetry okEnv exNetMgr { ty := DescType.answer, payload := 3 } 9
      "opp1" rfl).2.2.1
  · exact h4 [9]

/-- Candidates arriving while no remote description is set are only
queued, in arrival order; nothing else changes. -/
theorem connRun_queues_cands (env : Env) (pre : List Cand) (s : ConnState)
    (hpc : s.pcPresent = true) (hcl : s.signalingClosed = false)
    (hrd : s.remoteDescription = none) :
    connRun env s (pre.map CEv.cand) =
      { s with pendingRemoteCandidates := s.pendingRemoteCandidates ++ pre } := by
  induction pre generalizing s with
  | nil => simp [connRun]
  | cons c cs ih =>
    have hstep : connStep env s (CEv.cand c) =
        { s with pendingRemoteCandidates := s.pendingRemoteCandidates ++ [c] } := by
      simp [connStep, handleCandidate, handleCandidateB, hpc, hcl, hrd]
    have ih' := ih { s with pendingRemoteCandidates := s.pendingRemoteCandidates ++ [c] }
      hpc hcl hrd
    simp only [connRun, List.map_cons, List.foldl_cons] at ih' ⊢
    rw [hstep, ih']
    simp

/-- Candidates arriving once a remote description is set are each applied
immediately (an `addIceCandidate` attempt), in arrival order, and none is
queued. -/
theorem connRun_applies_cands (post : List Cand) (s : ConnState)
    (hpc : s.pcPresent = true) (hcl : s.signalingClosed = false)
    (hrd : s.remoteDescription.isSome) :
    connRun okEnv s (post.map CEv.cand) =
      { s with attempts := s.attempts ++ post.map Attempt.addIce } := by
  induction post generalizing s with
  | nil => simp [connRun]
  | cons c cs ih =>
    obtain ⟨d, hd⟩ := Option.isSome_iff_exists.mp hrd
    have hstep : connStep okEnv s (CEv.cand c) =
        { s with attempts := s.attempts ++ [Attempt.addIce c] } := by
      simp [connStep, handleCandidate, handleCandidateB, hpc, hcl, hd, okEnv]
    have ih' := ih { s with attempts := s.attempts ++ [Attempt.addIce c] } hpc hcl
      (by simp [hd])
    simp only [connRun, List.map_cons, List.foldl_cons] at ih' ⊢
    rw [hstep, ih']
    simp

/-- The flush loop drains the whole queue, applying each entry in FIFO
order, independently of per-candidate failures. -/
theorem flushGo_drains (env : Env) (l : List Cand) (s : ConnState)
    (h : s.pendingRemoteCandidates = l) :
    flushGo env l s =
      { s with pendingRemoteCandidates := []
               attempts := s.attempts ++ l.map Attempt.addIce } := by
  induction l generalizing s with
  | nil =>
    simp only [flushGo, List.map_nil, List.append_nil]
    rw [← h]
  | cons c cs ih =>
    simp only [flushGo]
    cases env.addIceCandidate c <;>
      · rw [ih _ rfl]
        simp

/-- `flushPendingRemoteCandidates` on a live connection with a remote
description: the queue is emptied and every entry applied in order. -/
theorem flushPending_drains (env : Env) (s : ConnState)
    (hpc : s.pcPresent = true) (hrd : s.remoteDescription.isSome) :
    flushPendingRemoteCandidates env s =
      { s with pendingRemoteCandidates := []
               attempts := s.attempts ++ s.pendingRemoteCandidates.map Attempt.addIce } := by
  rw [flushPendingRemoteCandidates, if_neg]
  · exact flushGo_drains env _ s rfl
  · simp [hpc, Option.isNone_iff_eq_none]
    exact Option.isSome_iff_ne_none.mp hrd

/-- Extracting applied candidates from a pure `addIceCandidate` attempt
run gives back the candidates. -/
theorem filterMap_attemptCand_addIce (l : List Cand) :
    l.filterMap (attemptCand ∘ Attempt.addIce) = l := by
  induction l with
  | nil => rfl
  | cons c cs ih => simp [attemptCand, Function.comp, ih]

/-- Error-free `handleOffer` on a live connection: installs the remote
offer, produces, installs and sends the answer, then drains the whole
candidate queue in order. -/
theorem handleOffer_ok (s : ConnState) (d : SDesc) (hpc : s.pcPresent = true) :
    handleOffer okEnv s d =
      { s with remoteDescription := some d
               localDescription := some { ty := DescType.answer, payload := 1 }
               pendingRemoteCandidates := []
               attempts := s.attempts ++ [Attempt.setRemoteDesc, Attempt.createAnswer,
                 Attempt.setLocalDesc] ++ s.pendingRemoteCandidates.map Attempt.addIce
               sent := s.sent ++ [OutMsg.answer { ty := DescType.answer, payload := 1 }
                 s.opponentId] } := by
  simp only [handleOffer, hpc, if_true, handleOfferB, okEnv]
  rw [flushPending_drains _ _ (by simp [hpc]) (by simp)]
  simp

/-- Error-free `handleAnswer` on a live connection: installs the remote
answer and drains the whole candidate queue in order. -/
theorem handleAnswer_ok (s : ConnState) (d : SDesc) (hpc : s.pcPresent = true) :
    handleAnswer okEnv s d =
      { s with remoteDescription := some d
               pendingRemoteCandidates := []
               attempts := s.attempts ++ [Attempt.setRemoteDesc]
                 ++ s.pendingRemoteCandidates.map Attempt.addIce } := by
  simp only [handleAnswer, handleAnswerB, hpc, if_true, okEnv]
  rw [flushPending_drains _ _ (by simp [hpc]) (by simp)]

/-- C2: on a responder session, every ICE candidate received before the
remote description is appended to the pending queue and none is applied;
when the remote description arrives (via offer or answer) the queue is
drained exactly once in FIFO order, leaving it empty, so the applied
trace is exactly the pre-description candidates (in order) followed by
the post-description candidates, each applied immediately and exactly
once. -/
theorem candidate_buffering_fifo (opp : String) (pre post : List Cand) (d : SDesc)
    (viaOffer : Bool) :
    appliedOf (connRun okEnv (initializeConn okEnv false opp) (pre.map CEv.cand)) = [] ∧
    (connRun okEnv (initializeConn okEnv false opp)
        (pre.map CEv.cand)).pendingRemoteCandidates = pre ∧
    appliedOf (connRun okEnv (initializeConn okEnv false opp)
        (pre.map CEv.cand ++ [if viaOffer then CEv.offer d else CEv.answer d]
          ++ post.map CEv.cand)) = pre ++ post ∧
    (connRun okEnv (initializeConn okEnv false opp)
        (pre.map CEv.cand ++ [if viaOffer then CEv.offer d else CEv.answer d]
          ++ post.map CEv.cand)).pendingRemoteCandidates = [] := by
  have hmid : connRun okEnv (initializeConn okEnv false opp) (pre.map CEv.cand) =
      { initializeConn okEnv false opp with pendingRemoteCandidates := pre } := by
    rw [connRun_queues_cands okEnv pre _ rfl rfl rfl]
    simp [initializeConn, initialConnState]
  have hsplit : connRun okEnv (initializeConn okEnv false opp)
      (pre.map CEv.cand ++ [if viaOffer then CEv.offer d else CEv.answer d]
        ++ post.map CEv.cand) =
      connRun okEnv (connStep okEnv (connRun okEnv (initializeConn okEnv false opp)
        (pre.map CEv.cand)) (if viaOffer then CEv.offer d else CEv.answer d))
        (post.map CEv.cand) := by
    simp [connRun, List.foldl_append]
  refine ⟨?_, ?_, ?_, ?_⟩
  · rw [hmid]; simp [appliedOf, initializeConn, initialConnState]
  · rw [hmid]
  · rw [hsplit, hmid]
    cases viaOffer with
    | true =>
      simp only [if_true, connStep]
      rw [handleOffer_ok _ d rfl]
      rw [connRun_applies_cands post _ rfl rfl (by simp)]
      simp [appliedOf, initializeConn, initialConnState, List.filterMap_append,
        filterMap_attemptCand_addIce, attemptCand]
    | false =>
      simp only [if_false, Bool.false_eq_true, connStep]
      rw [handleAnswer_ok _ d rfl]
      rw [connRun_applies_cands post _ rfl rfl (by simp)]
      simp [appliedOf, initializeConn, initialConnState, List.filterMap_append,
        filterMap_attemptCand_addIce, attemptCand]
  · rw [hsplit, hmid]
    cases viaOffer with
    | true =>
      simp only [if_true, connStep]
      rw [handleOffer_ok _ d rfl]
      rw [connRun_applies_cands post _ rfl rfl (by simp)]
    | false =>
      simp only [if_false, Bool.false_eq_true, connStep]
      rw [handleAnswer_ok _ d rfl]
      rw [connRun_applies_cands post _ rfl rfl (by simp)]

/-- An attempt trace of pure candidate applications contains no
description-operation entries. -/
theorem count_map_addIce_ne (l : List Cand) (a : Attempt)
    (h : ∀ cd : Cand, a ≠ Attempt.addIce cd) :
    (l.map Attempt.addIce).count a = 0 := by
  induction l with
  | nil => rfl
  | cons c cs ih => simp [List.count_cons, ih, h c]

/-- Candidate-application attempts count candidates. -/
theorem count_map_addIce (l : List Cand) (cd : Cand) :
    (l.map Attempt.addIce).count (Attempt.addIce cd) = l.count cd := by
  induction l with
  | nil => rfl
  | cons c cs ih => simp [List.count_cons, ih, Attempt.addIce.injEq]

/-- The attempt trace `handleOffer` can leave behind: nothing (missing
peer connection), or the prefix of the operation sequence up to the first
failure, the complete successful case ending with one flush of the
queue. -/
theorem handleOffer_attempts_cases (env : Env) (s : ConnState) (d : SDesc) :
    (handleOffer env s d).attempts = s.attempts ∨
    (handleOffer env s d).attempts = s.attempts ++ [Attempt.setRemoteDesc] ∨
    (handleOffer env s d).attempts =
      s.attempts ++ [Attempt.setRemoteDesc, Attempt.createAnswer] ∨
    (handleOffer env s d).attempts =
      s.attempts ++ [Attempt.setRemoteDesc, Attempt.createAnswer, Attempt.setLocalDesc] ∨
    (handleOffer env s d).attempts =
      s.attempts ++ [Attempt.setRemoteDesc, Attempt.createAnswer, Attempt.setLocalDesc]
        ++ s.pendingRemoteCandidates.map Attempt.addIce := by
  by_cases hpc : s.pcPresent = true
  · cases h1 : env.setRemoteDescription d with
    | error e => simp [handleOffer, hpc, handleOfferB, h1]
    | ok u =>
      cases h2 : env.createAnswer with
      | error e => simp [handleOffer, hpc, handleOfferB, h1, h2]
      | ok ans =>
        cases h3 : env.setLocalDescription ans with
        | error e => simp [handleOffer, hpc, handleOfferB, h1, h2, h3]
        | ok v =>
          simp only [handleOffer, hpc, if_true, handleOfferB, h1, h2, h3]
          rw [flushPending_drains _ _ (by simp [hpc]) (by simp)]
          simp
  · simp [handleOffer, hpc]

/-- The attempt trace `handleAnswer` can leave behind. -/
theorem handleAnswer_attempts_cases (env : Env) (s : ConnState) (a : SDesc) :
    (handleAnswer env s a).attempts = s.attempts ∨
    (handleAnswer env s a).attempts = s.attempts ++ [Attempt.setRemoteDesc] ∨
    (handleAnswer env s a).attempts = s.attempts ++ [Attempt.setRemoteDesc]
      ++ s.pendingRemoteCandidates.map Attempt.addIce := by
  by_cases hpc : s.pcPresent = true
  · cases h1 : env.setRemoteDescription a with
    | error e => simp [handleAnswer, handleAnswerB, hpc, h1]
    | ok u =>
      simp only [handleAnswer, handleAnswerB, hpc, if_true, h1]
      rw [flushPending_drains _ _ (by simp [hpc]) (by simp)]
      simp
  · simp [handleAnswer, handleAnswerB, hpc]

/-- C8: every failure during offer production, answer production or
candidate application is caught — each negotiation operation returns
normally with the state it had reached, performing no retry. On a
remote-description failure (`handleOffer` / `handleAnswer`), a candidate
application failure, or an offer-production failure, the session state is
unchanged apart from the single logged attempt; when answer production
fails after the remote description was installed, no answer is sent and
the queue is not flushed; and in every outcome a single call attempts
each description operation at most once and applies each queued candidate
at most as often as it is queued (no automatic retry). -/
theorem negotiation_errors_contained (env : Env) (s : ConnState) (d a : SDesc) (c : Cand) :
    (env.setRemoteDescription d = Except.error () → s.pcPresent = true →
      handleOffer env s d = { s with attempts := s.attempts ++ [Attempt.setRemoteDesc] }) ∧
    (env.setRemoteDescription a = Except.error () → s.pcPresent = true →
      handleAnswer env s a = { s with attempts := s.attempts ++ [Attempt.setRemoteDesc] }) ∧
    (env.addIceCandidate c = Except.error () → s.pcPresent = true →
      s.signalingClosed = false → s.remoteDescription.isSome →
      handleCandidate env s c = { s with attempts := s.attempts ++ [Attempt.addIce c] }) ∧
    (env.createOffer = Except.error () →
      createAndSendOffer env s = { s with attempts := s.attempts ++ [Attempt.createOffer] }) ∧
    (env.setRemoteDescription d = Except.ok () → env.createAnswer = Except.error () →
      s.pcPresent = true →
      (handleOffer env s d).sent = s.sent ∧
      (handleOffer env s d).pendingRemoteCandidates = s.pendingRemoteCandidates) ∧
    ((handleOffer env s d).attempts.count Attempt.setRemoteDesc
        ≤ s.attempts.count Attempt.setRemoteDesc + 1) ∧
    ((handleOffer env s d).attempts.count Attempt.createAnswer
        ≤ s.attempts.count Attempt.createAnswer + 1) ∧
    ((handleOffer env s d).attempts.count Attempt.setLocalDesc
        ≤ s.attempts.count Attempt.setLocalDesc + 1) ∧
    ((handleAnswer env s a).attempts.count Attempt.setRemoteDesc
        ≤ s.attempts.count Attempt.setRemoteDesc + 1) ∧
    ((handleCandidate env s c).attempts.count (Attempt.addIce c)
        ≤ s.attempts.count (Attempt.addIce c) + 1) ∧
    ((createAndSendOffer env s).attempts.count Attempt.createOffer
        ≤ s.attempts.count Attempt.createOffer + 1) ∧
    (∀ cd : Cand, (handleOffer env s d).attempts.count (Attempt.addIce cd)
        ≤ s.attempts.count (Attempt.addIce cd) + s.pendingRemoteCandidates.count cd) := by
  refine ⟨?_, ?_, ?_, ?_, ?_, ?_, ?_, ?_, ?_, ?_, ?_, ?_⟩
  · intro h1 hpc
    simp [handleOffer, hpc, handleOfferB, h1]
  · intro h1 hpc
    simp [handleAnswer, handleAnswerB, hpc, h1]
  · intro h1 hpc hcl hrd
    obtain ⟨rd, hrd'⟩ := Option.isSome_iff_exists.mp hrd
    simp [handleCandidate, handleCandidateB, hpc, hcl, hrd', h1]
  · intro h1
    simp [createAndSendOffer, createAndSendOfferB, h1]
  · intro h1 h2 hpc
    simp [handleOffer, hpc, handleOfferB, h1, h2]
  · rcases handleOffer_attempts_cases env s d with h | h | h | h | h <;>
      simp [h, List.count_append, count_map_addIce_ne _ Attempt.setRemoteDesc (by intro cd hc; cases hc)]
  · rcases handleOffer_attempts_cases env s d with h | h | h | h | h <;>
      simp [h, List.count_append, count_map_addIce_ne _ Attempt.createAnswer (by intro cd hc; cases hc)]
  · rcases handleOffer_attempts_cases env s d with h | h | h | h | h <;>
      simp [h, List.count_append, count_map_addIce_ne _ Attempt.setLocalDesc (by intro cd hc; cases hc)]
  · rcases handleAnswer_attempts_cases env s a with h | h | h <;>
      simp [h, List.count_append, count_map_addIce_ne _ Attempt.setRemoteDesc (by intro cd hc; cases hc)]
  · by_cases hpc : s.pcPresent = true
    · by_cases hcl : s.signalingClosed = true
      · simp [handleCandidate, handleCandidateB, hpc, hcl]
      · cases hrd : s.remoteDescription with
        | none => simp [handleCandidate, handleCandidateB, hpc, hcl, hrd]
        | some rd =>
          cases h1 : env.addIceCandidate c with
          | error e =>
            simp [handleCandidate, handleCandidateB, hpc, hcl, hrd, h1, List.count_append]
          | ok u =>
            simp [handleCandidate, handleCandidateB, hpc, hcl, hrd, h1, List.count_append]
    · simp [handleCandidate, handleCandidateB, hpc]
  · cases h1 : env.createOffer with
    | error e => simp [createAndSendOffer, createAndSendOfferB, h1, List.count_append]
    | ok off =>
      cases h2 : env.setLocalDescription off with
      | error e =>
        simp [createAndSendOffer, createAndSendOfferB, h1, h2, List.count_append]
      | ok v =>
        simp [createAndSendOffer, createAndSendOfferB, h1, h2, List.count_append]
  · intro cd
    rcases handleOffer_attempts_cases env s d with h | h | h | h | h <;>
      simp [h, List.count_append, count_map_addIce]


/-- `find?` by id commutes with mapping an id-preserving function. -/
theorem find?_map_preserving_id (g : SClient → SClient) (hg : ∀ x, (g x).id = x.id)
    (y : String) (cs : List SClient) :
    (cs.map g).find? (fun x => x.id = y) = (cs.find? (fun x => x.id = y)).map g := by
  induction cs with
  | nil => rfl
  | cons x rest ih =>
    simp only [List.map_cons, List.find?_cons, hg]
    by_cases h : x.id = y
    · simp [h]
    · simp [h, ih]

/-- `getClient` reads only the `clients` field. -/
theorem getClient_mk (cs : List SClient) (wt : Option String)
    (snt : List (String × SrvMsg)) (y : String) :
    SrvState.getClient { clients := cs, waiting := wt, sent := snt } y =
      cs.find? (fun x => x.id = y) := rfl

/-- A successful lookup returns the entry with the looked-up id. -/
theorem getClient_id (st : SrvState) (cid : String) (c : SClient)
    (h : st.getClient cid = some c) : c.id = cid := by
  simp only [SrvState.getClient] at h
  simpa using List.find?_some h

/-- A successful lookup's result is a member of the table. -/
theorem getClient_mem (st : SrvState) (cid : String) (c : SClient)
    (h : st.getClient cid = some c) : c ∈ st.clients := by
  simp only [SrvState.getClient] at h
  exact List.mem_of_find?_eq_some h

/-- C3: `handleFindMatch` pairs the caller with the waiting connection
when another client occupies the slot — the waiting client becomes the
`'A'`-role initiator with the caller as opponent, the caller becomes the
`'B'`-role responder with the waiting client as opponent, both open
sockets receive `match-found` with complementary roles and each other's
identity, and the slot is cleared — and otherwise registers the caller as
the sole waiting connection and replies `waiting`. -/
theorem findMatch_spec (st : SrvState) (cid wid : String) (c w : SClient)
    (hc : st.getClient cid = some c) :
    (st.waiting = some wid → wid ≠ cid → st.getClient wid = some w →
      (handleFindMatch st cid).waiting = none ∧
      (handleFindMatch st cid).getClient wid =
        some { w with role := some Role.A, isInitiator := some true, opponentId := some cid } ∧
      (handleFindMatch st cid).getClient cid =
        some { c with role := some Role.B, isInitiator := some false, opponentId := some wid } ∧
      (handleFindMatch st cid).sent = st.sent
        ++ (if w.wsOpen then [(wid, SrvMsg.matchFound Role.A cid true)] else [])
        ++ (if c.wsOpen then [(cid, SrvMsg.matchFound Role.B wid false)] else [])) ∧
    (st.waiting = none →
      (handleFindMatch st cid).waiting = some cid ∧
      (handleFindMatch st cid).clients = st.clients ∧
      (handleFindMatch st cid).sent = st.sent
        ++ (if c.wsOpen then [(cid, SrvMsg.waiting)] else [])) := by
  constructor
  · intro hw hne hgw
    have hcid : c.id = cid := getClient_id st cid c hc
    have hwid : w.id = wid := getClient_id st wid w hgw
    have hg1 : ∀ x : SClient, (if x.id = wid then { x with role := some Role.A, isInitiator := some true, opponentId := some cid } else x).id = x.id := by
      intro x; by_cases h : x.id = wid <;> simp [h]
    have hg2 : ∀ x : SClient, (if x.id = cid then { x with role := some Role.B, isInitiator := some false, opponentId := some wid } else x).id = x.id := by
      intro x; by_cases h : x.id = cid <;> simp [h]
    have hfc : st.clients.find? (fun x => x.id = cid) = some c := hc
    have hfw : st.clients.find? (fun x => x.id = wid) = some w := hgw
    have hne' : cid ≠ wid := fun h => hne h.symm
    have hmain : handleFindMatch st cid =
        { clients := (st.clients.map (fun x => if x.id = wid then { x with role := some Role.A, isInitiator := some true, opponentId := some cid } else x)).map (fun x => if x.id = cid then { x with role := some Role.B, isInitiator := some false, opponentId := some wid } else x),
          waiting := none,
          sent := st.sent ++ (if w.wsOpen then [(wid, SrvMsg.matchFound Role.A cid true)] else []) ++ (if c.wsOpen then [(cid, SrvMsg.matchFound Role.B wid false)] else []) } := by
      simp [handleFindMatch, hc, hw, hne, hgw, SrvState.updateClient]
    rw [hmain]
    refine ⟨rfl, ?_, ?_, rfl⟩
    · rw [getClient_mk, find?_map_preserving_id _ hg2 wid, find?_map_preserving_id _ hg1 wid,
        hfw]
      simp [hwid, hne]
    · rw [getClient_mk, find?_map_preserving_id _ hg2 cid, find?_map_preserving_id _ hg1 cid,
        hfc]
      simp [hcid, hne']
  · intro hw
    simp [handleFindMatch, hc, hw]

/-- C3 witness (FIFO stability): with p1/p2 already paired and p3
waiting, p4's `find-match` pairs p3 (initiator) with p4 (responder) and
clears the slot. -/
theorem findMatch_spec_witness :
    (handleFindMatch exSrvFifo "p4").waiting = none ∧
    (handleFindMatch exSrvFifo "p4").getClient "p3" =
      some { id := "p3", wsOpen := true, role := some Role.A, isInitiator := some true,
             opponentId := some "p4" } ∧
    (handleFindMatch exSrvFifo "p4").getClient "p4" =
      some { id := "p4", wsOpen := true, role := some Role.B, isInitiator := some false,
             opponentId := some "p3" } := by
  obtain ⟨h1, h2, h3, h4⟩ := (findMatch_spec exSrvFifo "p4" "p3"
      { id := "p4", wsOpen := true, role := none, isInitiator := none, opponentId := none }
      { id := "p3", wsOpen := true, role := none, isInitiator := none, opponentId := none }
      (by decide)).1 (by decide) (by decide) (by decide)
  exact ⟨h1, h2, h3⟩

/-- The server invariant concerns only `clients` and `waiting`. -/
theorem srvInv_of_eq (st st' : SrvState) (h : SrvInv st) (hc : st'.clients = st.clients)
    (hw : st'.waiting = st.waiting) : SrvInv st' := by
  obtain ⟨h1, h2, h3⟩ := h
  refine ⟨by rw [hc]; exact h1, ?_, by rw [hc]; exact h3⟩
  intro wid hww
  rw [hc]
  exact h2 wid (by rw [← hw]; exact hww)

/-- `handleSignal` only appends to the send trace. -/
theorem handleSignal_frame (st : SrvState) (cid : String) (p : Nat) :
    (handleSignal st cid p).clients = st.clients ∧
      (handleSignal st cid p).waiting = st.waiting := by
  cases hg : st.getClient cid with
  | none => simp [handleSignal, hg]
  | some client =>
    cases ho : client.opponentId with
    | none => simp [handleSignal, hg, ho]
    | some oid =>
      cases hf : st.clients.find? (fun c2 => c2.id = oid) with
      | none => simp [handleSignal, hg, ho, hf]
      | some opp => by_cases hb : opp.wsOpen <;> simp [handleSignal, hg, ho, hf, hb]

/-- Mapping an id-preserving function does not change the id column. -/
theorem map_id_of_preserving (g : SClient → SClient) (hg : ∀ x, (g x).id = x.id)
    (cs : List SClient) : (cs.map g).map SClient.id = cs.map SClient.id := by
  induction cs with
  | nil => rfl
  | cons x rest ih => simp [hg, ih]

/-- The server invariant holds initially. -/
theorem srvInv_init : SrvInv srvInit :=
  ⟨List.nodup_nil, by intro wid h; simp [srvInit] at h, by intro c h; simp [srvInit] at h⟩

/-- Every server handler preserves the invariant. -/
theorem srvInv_step (st : SrvState) (a : SAct) (h : SrvInv st) : SrvInv (stepSrv st a) := by
  obtain ⟨hnd, hwait, hopp⟩ := h
  cases a with
  | connect cid =>
    simp only [stepSrv, srvConnect, mapSet]
    by_cases hany : st.clients.any (fun c => c.id = cid) = true
    · rw [if_pos hany]
      have hg : ∀ x : SClient, ((fun c => if c.id = cid then { id := cid, wsOpen := true, role := none, isInitiator := none, opponentId := none } else c) x).id = x.id := by
        intro x; by_cases hx : x.id = cid <;> simp [hx]
      refine ⟨?_, ?_, ?_⟩
      · rw [map_id_of_preserving _ hg]; exact hnd
      · intro wid hww
        rw [map_id_of_preserving _ hg]
        exact hwait wid hww
      · intro c hcmem
        obtain ⟨x, hx, hfx⟩ := List.mem_map.mp hcmem
        by_cases hxid : x.id = cid <;> simp [hxid] at hfx <;> rw [← hfx]
        · simp
        · exact hopp x hx
    · rw [if_neg hany]
      refine ⟨?_, ?_, ?_⟩
      · rw [List.map_append]
        simp only [List.map_cons, List.map_nil]
        rw [List.nodup_append]
        refine ⟨hnd, List.nodup_singleton _, ?_⟩
        intro i hi
        simp only [List.mem_singleton]
        intro hic
        rw [hic] at hi
        obtain ⟨x, hx, hxid⟩ := List.mem_map.mp hi
        rw [List.any_eq_true] at hany
        exact hany ⟨x, hx, by simp [hxid]⟩
      · intro wid hww
        rw [List.map_append]
        exact List.mem_append_left _ (hwait wid hww)
      · intro c hcmem
        rcases List.mem_append.mp hcmem with hl | hr
        · exact hopp c hl
        · simp only [List.mem_singleton] at hr
          rw [hr]
          simp
  | findMatch cid =>
    simp only [stepSrv]
    cases hc : st.getClient cid with
    | none => simp only [handleFindMatch, hc]; exact ⟨hnd, hwait, hopp⟩
    | some client =>
      have hcmemid : cid ∈ st.clients.map SClient.id := by
        refine List.mem_map.mpr ⟨client, getClient_mem st cid client hc, ?_⟩
        exact getClient_id st cid client hc
      cases hw : st.waiting with
      | none =>
        simp only [handleFindMatch, hc, hw]
        exact ⟨hnd, by intro wid hww; simp at hww; rw [← hww]; exact hcmemid, hopp⟩
      | some wid =>
        by_cases hne : wid ≠ cid
        · simp only [handleFindMatch, hc, hw]
          rw [if_pos hne]
          have hg1 : ∀ x : SClient, ((fun x2 => if x2.id = wid then { x2 with role := some Role.A, isInitiator := some true, opponentId := some cid } else x2) x).id = x.id := by
            intro x; by_cases hx : x.id = wid <;> simp [hx]
          refine ⟨?_, ?_, ?_⟩
          · simp only [SrvState.updateClient]
            rw [map_id_of_preserving _ (by intro x; by_cases hx : x.id = cid <;> simp [hx]),
              map_id_of_preserving _ hg1]
            exact hnd
          · intro wid2 hww; simp at hww
          · intro c hcmem
            simp only [SrvState.updateClient] at hcmem
            obtain ⟨y, hy, hfy⟩ := List.mem_map.mp hcmem
            obtain ⟨x, hx, hfx⟩ := List.mem_map.mp hy
            by_cases hx1 : x.id = wid
            · rw [if_pos hx1] at hfx
              rw [← hfx] at hfy
              simp only at hfy
              rw [if_neg (by simpa [hx1] using hne)] at hfy
              rw [← hfy]
              simp only [ne_eq, Option.some.injEq]
              intro hcontra
              rw [hx1] at hcontra
              exact hne hcontra.symm
            · rw [if_neg hx1] at hfx
              rw [← hfx] at hfy
              by_cases hx2 : x.id = cid
              · rw [if_pos hx2] at hfy
                rw [← hfy]
                simp only [ne_eq, Option.some.injEq]
                intro hcontra
                rw [hx2] at hcontra
                exact hne hcontra
              · rw [if_neg hx2] at hfy
                rw [← hfy]
                exact hopp x hx
        · simp only [handleFindMatch, hc, hw]
          rw [if_neg hne]
          refine ⟨hnd, ?_, hopp⟩
          intro wid2 hww
          simp only [Option.some.injEq] at hww
          rw [← hww]
          exact hcmemid
  | close cid =>
    simp only [stepSrv]
    unfold handleClose
    have hfilter_ids : ∀ w2 : String, w2 ∈ st.clients.map SClient.id → w2 ≠ cid →
        w2 ∈ (st.clients.filter (fun c => c.id ≠ cid)).map SClient.id := by
      intro w2 hmem hne
      obtain ⟨x, hx, hxid⟩ := List.mem_map.mp hmem
      refine List.mem_map.mpr ⟨x, List.mem_filter.mpr ⟨hx, by simp [hxid, hne]⟩, hxid⟩
    have hnd' : ∀ cs : List SClient, ((cs.filter (fun c => c.id ≠ cid)).map SClient.id).Nodup
        ∨ True := fun _ => Or.inr trivial
    by_cases hwc : st.waiting = some cid
    · rw [if_pos hwc]
      refine ⟨?_, ?_, ?_⟩
      · exact ((List.filter_sublist _).map SClient.id).nodup hnd
      · intro wid hww; simp at hww
      · intro c hcmem
        exact hopp c (List.mem_of_mem_filter hcmem)
    · rw [if_neg hwc]
      refine ⟨?_, ?_, ?_⟩
      · exact ((List.filter_sublist _).map SClient.id).nodup hnd
      · intro wid hww
        simp only at hww
        have hne : wid ≠ cid := by
          intro hcontra
          rw [hcontra] at hww
          exact hwc hww
        exact hfilter_ids wid (hwait wid hww) hne
      · intro c hcmem
        exact hopp c (List.mem_of_mem_filter hcmem)
  | signal cid p =>
    obtain ⟨hcl, hwl⟩ := handleSignal_frame st cid p
    exact srvInv_of_eq st _ ⟨hnd, hwait, hopp⟩ hcl hwl

/-- The invariant holds in every reachable server state. -/
theorem srvInv_reachable (st : SrvState) (h : SrvReachable st) : SrvInv st := by
  induction h with
  | init => exact srvInv_init
  | step a _ ih => exact srvInv_step _ a ih

/-- C9: the relay server never pairs a client with itself — in every
reachable state no client's recorded opponent is its own identity, and
when the client already holding the waiting slot calls `find-match`
again it stays the sole waiting client (its entry unchanged) and merely
receives another `waiting` reply. -/
theorem no_self_pairing (st : SrvState) (h : SrvReachable st) :
    (∀ c ∈ st.clients, c.opponentId ≠ some c.id) ∧
    (∀ cid c2, st.waiting = some cid → st.getClient cid = some c2 →
      (handleFindMatch st cid).waiting = some cid ∧
      (handleFindMatch st cid).clients = st.clients ∧
      (handleFindMatch st cid).sent = st.sent
        ++ (if c2.wsOpen then [(cid, SrvMsg.waiting)] else [])) := by
  refine ⟨(srvInv_reachable st h).2.2, ?_⟩
  intro cid c2 hw hg
  simp [handleFindMatch, hg, hw]

/-- C9 witness: the single waiting client calling `find-match` again
stays the waiting client with the client table untouched. -/
theorem no_self_pairing_witness :
    (handleFindMatch exSrvWaiting "p1").waiting = some "p1" ∧
    (handleFindMatch exSrvWaiting "p1").clients = exSrvWaiting.clients := by
  have hr : SrvReachable exSrvWaiting :=
    SrvReachable.step (SAct.findMatch "p1")
      (SrvReachable.step (SAct.connect "p1") SrvReachable.init)
  obtain ⟨h1, h2, h3⟩ := (no_self_pairing exSrvWaiting hr).2 "p1"
    { id := "p1", wsOpen := true, role := none, isInitiator := none, opponentId := none }
    (by decide) (by decide)
  exact ⟨h1, h2⟩

/-- C4 (divergence witness): in the reachable state where p1/p2 and then
p3/p4 were paired, p4's recorded opponent is p3 and p3's socket is open,
yet p4's disconnect handler sends `peer-disconnected` to p1 — the close
handler looks the peer up by complementary *role* in insertion order,
not by the recorded opponent id, so p3 is never notified and p1 gets a
spurious notification. -/
theorem close_notifies_by_role_not_opponent :
    (c4State.getClient "p4").map SClient.opponentId = some (some "p3") ∧
    (c4State.getClient "p3").map SClient.wsOpen = some true ∧
    (handleClose c4State "p4").sent = c4State.sent ++ [("p1", SrvMsg.peerDisconnected)] ∧
    SrvReachable c4State := by
  refine ⟨by decide, by decide, by decide, ?_⟩
  exact SrvReachable.step (SAct.findMatch "p4")
    (SrvReachable.step (SAct.findMatch "p3")
      (SrvReachable.step (SAct.findMatch "p2")
        (SrvReachable.step (SAct.findMatch "p1")
          (SrvReachable.step (SAct.connect "p4")
            (SrvReachable.step (SAct.connect "p3")
              (SrvReachable.step (SAct.connect "p2")
                (SrvReachable.step (SAct.connect "p1") SrvReachable.init)))))))

/-- C8 witness: with every native primitive rejecting, the handlers on a
live responder session return normally with only the single failed
attempt logged and the session otherwise unchanged. -/
theorem negotiation_errors_contained_witness :
    handleOffer errEnv exConnRd { ty := DescType.offer, payload := 2 } =
      { exConnRd with attempts := [Attempt.setRemoteDesc] } ∧
    handleAnswer errEnv exConnRd { ty := DescType.answer, payload := 4 } =
      { exConnRd with attempts := [Attempt.setRemoteDesc] } ∧
    handleCandidate errEnv exConnRd 3 =
      { exConnRd with attempts := [Attempt.addIce 3] } ∧
    createAndSendOffer errEnv exConnRd =
      { exConnRd with attempts := [Attempt.createOffer] } :=
  have h := negotiation_errors_contained errEnv exConnRd
    { ty := DescType.offer, payload := 2 } { ty := DescType.answer, payload := 4 } 3
  ⟨h.1 rfl rfl, h.2.1 rfl rfl, h.2.2.1 rfl rfl rfl rfl, h.2.2.2.1 rfl⟩

/-- The fold computing the head of the stable timestamp sort returns a
list element. -/
theorem foldl_earlier_mem (ps : List Peer) (p : Peer) :
    ps.foldl earlierPeer p ∈ p :: ps := by
  induction ps generalizing p with
  | nil => simp
  | cons q qs ih =>
    have h := ih (earlierPeer p q)
    rcases List.mem_cons.mp h with h1 | h1
    · rw [List.foldl_cons, h1]
      unfold earlierPeer
      by_cases hq : q.timestamp < p.timestamp <;> simp [hq]
    · rw [List.foldl_cons]
      exact List.mem_cons.mpr (Or.inr (List.mem_cons.mpr (Or.inr h1)))

/-- The fold computing the head of the stable timestamp sort returns a
minimal-timestamp element. -/
theorem foldl_earlier_le (ps : List Peer) (p : Peer) :
    ∀ q ∈ p :: ps, (ps.foldl earlierPeer p).timestamp ≤ q.timestamp := by
  induction ps generalizing p with
  | nil =>
    intro q hq
    simp at hq
    rw [hq, List.foldl_nil]
  | cons r rs ih =>
    intro q hq
    have hlep : (earlierPeer p r).timestamp ≤ p.timestamp := by
      unfold earlierPeer; split <;> omega
    have hler : (earlierPeer p r).timestamp ≤ r.timestamp := by
      unfold earlierPeer; split <;> omega
    rcases List.mem_cons.mp hq with h1 | h1
    · rw [h1, List.foldl_cons]
      exact le_trans (ih (earlierPeer p r) _ (List.mem_cons_self _ _)) hlep
    rcases List.mem_cons.mp h1 with h2 | h2
    · rw [h2, List.foldl_cons]
      exact le_trans (ih (earlierPeer p r) _ (List.mem_cons_self _ _)) hler
    · rw [List.foldl_cons]
      exact ih (earlierPeer p r) q (List.mem_cons.mpr (Or.inr h2))

/-- `earliestHost` returns a member of the host list. -/
theorem earliestHost_mem (hs : List Peer) (w : Peer) (h : earliestHost hs = some w) :
    w ∈ hs := by
  cases hs with
  | nil => cases h
  | cons p ps =>
    simp only [earliestHost, Option.some.injEq] at h
    rw [← h]
    exact foldl_earlier_mem ps p

/-- `earliestHost` returns an element of minimal timestamp. -/
theorem earliestHost_le (hs : List Peer) (w : Peer) (h : earliestHost hs = some w) :
    ∀ q ∈ hs, w.timestamp ≤ q.timestamp := by
  cases hs with
  | nil => cases h
  | cons p ps =>
    simp only [earliestHost, Option.some.injEq] at h
    rw [← h]
    exact foldl_earlier_le ps p

/-- With a strict-minimum element (unique by id), `earliestHost` returns
exactly it. -/
theorem earliestHost_eq_of_strict_min (hs : List Peer) (w : Peer) (hw : w ∈ hs)
    (hmin : ∀ q ∈ hs, q.id ≠ w.id → w.timestamp < q.timestamp)
    (hids : (hs.map Peer.id).Nodup) : earliestHost hs = some w := by
  cases hhs : hs with
  | nil => rw [hhs] at hw; cases hw
  | cons p ps =>
    rw [hhs] at hw hmin hids
    have hrm : ps.foldl earlierPeer p ∈ p :: ps := foldl_earlier_mem ps p
    have hrle : (ps.foldl earlierPeer p).timestamp ≤ w.timestamp :=
      foldl_earlier_le ps p w hw
    by_cases hid : (ps.foldl earlierPeer p).id = w.id
    · have := List.inj_on_of_nodup_map hids hrm hw hid
      simp only [earliestHost, Option.some.injEq]
      exact this
    · exact absurd (hmin _ hrm hid) (by omega)

/-- A list with two distinct members has more than one element. -/
theorem one_lt_length_of_two_mem {α : Type} {l : List α} {a b : α} (ha : a ∈ l)
    (hb : b ∈ l) (hne : a ≠ b) : 1 < l.length := by
  cases l with
  | nil => cases ha
  | cons x t =>
    cases t with
    | nil =>
      simp only [List.mem_singleton] at ha hb
      exact absurd (ha.trans hb.symm) hne
    | cons y t2 => simp [List.length_cons]

/-- The looking-host view distributes over append. -/
theorem lookingHosts_append (now : Nat) (l1 l2 : List Peer) :
    lookingHosts now (l1 ++ l2) = lookingHosts now l1 ++ lookingHosts now l2 := by
  simp [lookingHosts, activePeersOf, List.filter_append]

/-- A guest registration is never a looking host. -/
theorem lookingHosts_guest (now : Nat) (cid hid : String) :
    lookingHosts now [guestPeer cid now hid] = [] := by
  simp [lookingHosts, activePeersOf, guestPeer]

/-- The looking-host view commutes with filtering the store. -/
theorem lookingHosts_filter (now : Nat) (q : Peer → Bool) (store : List Peer) :
    lookingHosts now (store.filter q) = (lookingHosts now store).filter q := by
  simp only [lookingHosts, activePeersOf, List.filter_filter]
  exact List.filter_congr (fun p _ => by
    cases q p <;> cases p.active <;> simp)

/-- The active-`'A'` view distributes over append. -/
theorem activeHostsA_append (now : Nat) (l1 l2 : List Peer) :
    activeHostsA now (l1 ++ l2) = activeHostsA now l1 ++ activeHostsA now l2 := by
  simp [activeHostsA, activePeersOf, List.filter_append]

/-- A guest registration never has role `'A'`. -/
theorem activeHostsA_guest (now : Nat) (cid hid : String) :
    activeHostsA now [guestPeer cid now hid] = [] := by
  simp [activeHostsA, activePeersOf, guestPeer]

/-- The active-`'A'` view commutes with filtering the store. -/
theorem activeHostsA_filter (now : Nat) (q : Peer → Bool) (store : List Peer) :
    activeHostsA now (store.filter q) = (activeHostsA now store).filter q := by
  simp only [activeHostsA, activePeersOf, List.filter_filter]
  exact List.filter_congr (fun p _ => by
    cases q p <;> cases p.active <;> simp)

/-- Effect of a demotion (`switchToGuest`) on the looking-host view:
exactly the demoted host's registrations disappear. -/
theorem lookingHosts_demote (now : Nat) (x cid hid : String) (store : List Peer) :
    lookingHosts now (store.filter (fun p => p.id ≠ x) ++ [guestPeer cid now hid]) =
      (lookingHosts now store).filter (fun p => p.id ≠ x) := by
  rw [lookingHosts_append, lookingHosts_guest, List.append_nil, lookingHosts_filter]

/-- Effect of a demotion on the active-`'A'` view. -/
theorem activeHostsA_demote (now : Nat) (x cid hid : String) (store : List Peer) :
    activeHostsA now (store.filter (fun p => p.id ≠ x) ++ [guestPeer cid now hid]) =
      (activeHostsA now store).filter (fun p => p.id ≠ x) := by
  rw [activeHostsA_append, activeHostsA_guest, List.append_nil, activeHostsA_filter]

/-- The id column of a store filtered by id. -/
theorem map_id_filter_ne (x : String) (l : List Peer) :
    (l.filter (fun p => p.id ≠ x)).map Peer.id = (l.map Peer.id).filter (fun i => i ≠ x) := by
  rw [List.filter_map]
  rfl

/-- `verifyHostStatus` run by the earliest-registered looking host: it
keeps the role and starts polling; store and traces are untouched. -/
theorem verifyHostStatus_confirms (now : Nat) (m : LMgr) (store : List Peer) (w : Peer)
    (hw : w ∈ lookingHosts now store)
    (hmin : ∀ q ∈ lookingHosts now store, q.id ≠ w.id → w.timestamp < q.timestamp)
    (hids : ((lookingHosts now store).map Peer.id).Nodup)
    (hpid : m.peerId = w.id) :
    verifyHostStatus now m store = ({ m with hostPolling := true }, store) := by
  have he := earliestHost_eq_of_strict_min _ w hw hmin hids
  simp only [verifyHostStatus, he]
  rw [if_neg (by simp [hpid])]

/-- `verifyHostStatus` run by a registered looking host that is not the
earliest: it demotes itself to responder, records the winner as opponent,
sends the winner a `join-request`, and replaces its host registration by
a guest registration. -/
theorem verifyHostStatus_demotes (now : Nat) (m : LMgr) (store : List Peer) (w : Peer)
    (hw : w ∈ lookingHosts now store)
    (hmin : ∀ q ∈ lookingHosts now store, q.id ≠ w.id → w.timestamp < q.timestamp)
    (hids : ((lookingHosts now store).map Peer.id).Nodup)
    (hmem : m.peerId ∈ (lookingHosts now store).map Peer.id)
    (hpid : m.peerId ≠ w.id) :
    verifyHostStatus now m store =
      ({ m with role := some Role.B, isInitiator := false, opponentId := some w.id, signalsSent := m.signalsSent ++ [SigMsg.joinRequest m.peerId w.id] },
       store.filter (fun p => p.id ≠ m.peerId) ++ [guestPeer m.peerId now w.id]) := by
  have he := earliestHost_eq_of_strict_min _ w hw hmin hids
  have hlen : 1 < (lookingHosts now store).length := by
    obtain ⟨p, hp, hpide⟩ := List.mem_map.mp hmem
    refine one_lt_length_of_two_mem hp hw ?_
    intro hcontra
    rw [hcontra] at hpide
    exact hpid hpide.symm
  simp only [verifyHostStatus, he]
  rw [if_pos ⟨hlen, fun h => hpid h.symm⟩]
  rfl

/-- The settled verification round, by induction over the racing
managers. `h0done` records whether the winner's own verification has
already run; the permutation hypothesis ties the remaining managers to
the hosts still registered. -/
theorem settleRound_go (now : Nat) (w : Peer) (mgrs : List LMgr) :
    ∀ (store : List Peer) (h0done : Bool),
      w ∈ lookingHosts now store →
      (∀ q ∈ lookingHosts now store, q.id ≠ w.id → w.timestamp < q.timestamp) →
      ((lookingHosts now store).map Peer.id).Nodup →
      activeHostsA now store = lookingHosts now store →
      (mgrs.map LMgr.peerId).Perm
        (if h0done then ((lookingHosts now store).map Peer.id).erase w.id
          else (lookingHosts now store).map Peer.id) →
      (settleRound now mgrs store).1 = mgrs.map (c1Outcome w) ∧
      lookingHosts now (settleRound now mgrs store).2 = [w] ∧
      activeHostsA now (settleRound now mgrs store).2 = [w] := by
  induction mgrs with
  | nil =>
    intro store h0done hw hmin hids heq hperm
    simp only [List.map_nil] at hperm
    cases h0done with
    | false =>
      exfalso
      have hnil : (lookingHosts now store).map Peer.id = [] := by
        simpa using (hperm.nil_eq).symm
      have hmm : w.id ∈ (lookingHosts now store).map Peer.id :=
        List.mem_map.mpr ⟨w, hw, rfl⟩
      rw [hnil] at hmm
      cases hmm
    | true =>
      have h1 : ((lookingHosts now store).map Peer.id).erase w.id = [] := by
        simpa using (hperm.nil_eq).symm
      have hwid : w.id ∈ (lookingHosts now store).map Peer.id :=
        List.mem_map.mpr ⟨w, hw, rfl⟩
      have hlen := List.length_erase_of_mem hwid
      rw [h1] at hlen
      have hlen1 : (lookingHosts now store).length = 1 := by
        have hmaplen : ((lookingHosts now store).map Peer.id).length =
            (lookingHosts now store).length := List.length_map _ _
        have hpos : 0 < ((lookingHosts now store).map Peer.id).length :=
          List.length_pos.mpr (by intro hcon; rw [hcon] at hwid; cases hwid)
        simp only [List.length_nil] at hlen
        omega
      obtain ⟨a, ha⟩ := List.length_eq_one.mp hlen1
      have hwa : w = a := by
        rw [ha] at hw
        simpa using hw
      rw [hwa]
      exact ⟨rfl, by simpa [settleRound] using ha, by simpa [settleRound, heq] using ha⟩
  | cons m ms ih =>
    intro store h0done hw hmin hids heq hperm
    by_cases hpid : m.peerId = w.id
    · have hfalse : h0done = false := by
        cases h0done with
        | false => rfl
        | true =>
          exfalso
          simp only [List.map_cons, if_true] at hperm
          have hin0 : m.peerId ∈ ((lookingHosts now store).map Peer.id).erase w.id :=
            hperm.mem_iff.mp (List.mem_cons_self _ _)
          rw [hpid] at hin0
          exact hids.not_mem_erase hin0
      rw [hfalse] at hperm
      simp only [List.map_cons, Bool.false_eq_true, if_false] at hperm
      have hverify := verifyHostStatus_confirms now m store w hw hmin hids hpid
      have hperm' : (ms.map LMgr.peerId).Perm
          (((lookingHosts now store).map Peer.id).erase w.id) := by
        rw [← hpid]
        exact (List.cons_perm_iff_perm_erase.mp hperm).2
      obtain ⟨ih1, ih2, ih3⟩ := ih store true hw hmin hids heq (by simpa using hperm')
      simp only [settleRound, hverify]
      refine ⟨?_, ih2, ih3⟩
      rw [ih1]
      simp [c1Outcome, hpid]
    · have hmem : m.peerId ∈ (lookingHosts now store).map Peer.id := by
        have hmem0 := hperm.mem_iff.mp (List.mem_cons_self m.peerId (ms.map LMgr.peerId))
        cases h0done with
        | false => simpa using hmem0
        | true =>
          simp only [if_true] at hmem0
          exact List.mem_of_mem_erase hmem0
      have hdem := verifyHostStatus_demotes now m store w hw hmin hids hmem hpid
      have hcur' : lookingHosts now
          (store.filter (fun p => p.id ≠ m.peerId) ++ [guestPeer m.peerId now w.id]) =
          (lookingHosts now store).filter (fun p => p.id ≠ m.peerId) :=
        lookingHosts_demote now m.peerId m.peerId w.id store
      have heq' : activeHostsA now
          (store.filter (fun p => p.id ≠ m.peerId) ++ [guestPeer m.peerId now w.id]) =
          lookingHosts now
          (store.filter (fun p => p.id ≠ m.peerId) ++ [guestPeer m.peerId now w.id]) := by
        rw [hcur', activeHostsA_demote, heq]
      have hw' : w ∈ lookingHosts now
          (store.filter (fun p => p.id ≠ m.peerId) ++ [guestPeer m.peerId now w.id]) := by
        rw [hcur']
        refine List.mem_filter.mpr ⟨hw, ?_⟩
        simp only [ne_eq, decide_eq_true_eq]
        intro hcon
        exact hpid hcon.symm
      have hmin' : ∀ q ∈ lookingHosts now
          (store.filter (fun p => p.id ≠ m.peerId) ++ [guestPeer m.peerId now w.id]),
          q.id ≠ w.id → w.timestamp < q.timestamp := by
        intro q hq
        rw [hcur'] at hq
        exact hmin q (List.mem_of_mem_filter hq)
      have hids' : ((lookingHosts now
          (store.filter (fun p => p.id ≠ m.peerId) ++ [guestPeer m.peerId now w.id])).map
            Peer.id).Nodup := by
        rw [hcur', map_id_filter_ne]
        exact hids.filter _
      have hids_eq : (lookingHosts now
          (store.filter (fun p => p.id ≠ m.peerId) ++ [guestPeer m.peerId now w.id])).map
            Peer.id = ((lookingHosts now store).map Peer.id).erase m.peerId := by
        rw [hcur', map_id_filter_ne, hids.erase_eq_filter m.peerId]
        refine List.filter_congr ?_
        intro i _
        by_cases h : i = m.peerId <;> simp [h]
      have hperm'' : (ms.map LMgr.peerId).Perm
          (if h0done then ((lookingHosts now
            (store.filter (fun p => p.id ≠ m.peerId) ++ [guestPeer m.peerId now w.id])).map
              Peer.id).erase w.id
           else (lookingHosts now
            (store.filter (fun p => p.id ≠ m.peerId) ++ [guestPeer m.peerId now w.id])).map
              Peer.id) := by
        have hbase := (List.cons_perm_iff_perm_erase.mp hperm).2
        cases h0done with
        | false =>
          simp only [Bool.false_eq_true, if_false] at hbase ⊢
          rw [hids_eq]
          exact hbase
        | true =>
          simp only [if_true] at hbase ⊢
          rw [hids_eq, List.erase_comm]
          exact hbase
      obtain ⟨ih1, ih2, ih3⟩ := ih _ h0done hw' hmin' hids' heq' hperm''
      simp only [settleRound, hdem]
      refine ⟨?_, ih2, ih3⟩
      rw [ih1]
      simp [c1Outcome, hpid]

/-- In a duplicate-free list, filtering for one of its members keeps
exactly that member. -/
theorem filter_eq_self_of_nodup {l : List String} {a : String} (hnd : l.Nodup)
    (ha : a ∈ l) : l.filter (fun i => i = a) = [a] := by
  induction l with
  | nil => cases ha
  | cons x xs ih =>
    rcases List.mem_cons.mp ha with h | h
    · subst h
      have hx : a ∉ xs := (List.nodup_cons.mp hnd).1
      have hnil : xs.filter (fun i => i = a) = [] := by
        refine List.filter_eq_nil_iff.mpr ?_
        intro b hb
        simp only [decide_eq_true_eq]
        intro hbx
        rw [hbx] at hb
        exact hx hb
      simp [List.filter_cons, hnil]
    · have hxa : x ≠ a := by
        intro hc
        rw [hc] at hnd
        exact (List.nodup_cons.mp hnd).1 h
      simp only [List.filter_cons]
      rw [if_neg (by simp [hxa])]
      exact ih (List.nodup_cons.mp hnd).2 h

/-- The peer-id column of managers filtered by peer id. -/
theorem map_peerId_filter_eq (x : String) (l : List LMgr) :
    (l.filter (fun m => m.peerId = x)).map LMgr.peerId =
      (l.map LMgr.peerId).filter (fun i => i = x) := by
  rw [List.filter_map]
  rfl

/-- C1: a serialized verification round over any set of racing registered
initiators with pairwise-distinct registration timestamps settles with
exactly one initiator. Every manager other than the earliest-registered
host `w` demotes itself to responder, records `w` as opponent and sends
`w` a `join-request`; `w` keeps the role; the store retains exactly `w`
as registered looking host, and a subsequent polling re-evaluation
(`checkHostStatus`) by the winner changes nothing. -/
theorem leader_election_settles (now : Nat) (store : List Peer) (mgrs : List LMgr) (w : Peer)
    (hts : ((lookingHosts now store).map Peer.timestamp).Nodup)
    (hids : ((lookingHosts now store).map Peer.id).Nodup)
    (hlook : ∀ p ∈ store, p.role = Role.A → p.lookingForMatch = true)
    (hperm : (mgrs.map LMgr.peerId).Perm ((lookingHosts now store).map Peer.id))
    (hinit : ∀ m ∈ mgrs, m.isInitiator = true)
    (hmcall : ∀ m ∈ mgrs, m.matchmakingComplete = false)
    (hw : earliestHost (lookingHosts now store) = some w) :
    (settleRound now mgrs store).1 = mgrs.map (c1Outcome w) ∧
    lookingHosts now (settleRound now mgrs store).2 = [w] ∧
    ((settleRound now mgrs store).1.filter (fun m => m.isInitiator)).map LMgr.peerId
      = [w.id] ∧
    (∀ m ∈ mgrs, m.peerId ≠ w.id →
      (c1Outcome w m).role = some Role.B ∧ (c1Outcome w m).isInitiator = false ∧
      (c1Outcome w m).opponentId = some w.id ∧
      (c1Outcome w m).signalsSent = m.signalsSent ++ [SigMsg.joinRequest m.peerId w.id]) ∧
    (∀ m ∈ mgrs, m.peerId = w.id →
      checkHostStatus now (c1Outcome w m) (settleRound now mgrs store).2 =
        (c1Outcome w m, (settleRound now mgrs store).2)) := by
  have hwmem : w ∈ lookingHosts now store := earliestHost_mem _ w hw
  have hwle := earliestHost_le _ w hw
  have hmin : ∀ q ∈ lookingHosts now store, q.id ≠ w.id → w.timestamp < q.timestamp := by
    intro q hq hqid
    rcases Nat.lt_or_ge w.timestamp q.timestamp with hlt | hge
    · exact hlt
    · exfalso
      have heqts : q.timestamp = w.timestamp := le_antisymm hge (hwle q hq)
      have : q = w := List.inj_on_of_nodup_map hts hq hwmem heqts
      rw [this] at hqid
      exact hqid rfl
  have heq : activeHostsA now store = lookingHosts now store := by
    unfold activeHostsA lookingHosts
    refine List.filter_congr ?_
    intro p hp
    have hpst : p ∈ store := List.mem_of_mem_filter hp
    by_cases hr : p.role = Role.A
    · simp [hr, hlook p hpst hr]
    · have hb : (p.role == Role.A) = false := by simp [hr]
      simp [hb]
  obtain ⟨h1, h2, h3⟩ := settleRound_go now w mgrs store false hwmem hmin hids heq
    (by simpa using hperm)
  have hwid : w.id ∈ (lookingHosts now store).map Peer.id :=
    List.mem_map.mpr ⟨w, hwmem, rfl⟩
  refine ⟨h1, h2, ?_, ?_, ?_⟩
  · rw [h1, List.filter_map]
    have hcongr : mgrs.filter ((fun m' : LMgr => m'.isInitiator) ∘ c1Outcome w) =
        mgrs.filter (fun m => m.peerId = w.id) := by
      refine List.filter_congr ?_
      intro m hm
      by_cases h : m.peerId = w.id <;>
        simp [Function.comp, c1Outcome, h, hinit m hm]
    rw [hcongr, List.map_map]
    have hmapeq : (mgrs.filter (fun m => m.peerId = w.id)).map (LMgr.peerId ∘ c1Outcome w) =
        (mgrs.filter (fun m => m.peerId = w.id)).map LMgr.peerId := by
      refine List.map_congr_left ?_
      intro m _
      by_cases h : m.peerId = w.id <;> simp [Function.comp, c1Outcome, h]
    rw [hmapeq, map_peerId_filter_eq]
    refine List.perm_singleton.mp ?_
    have hp := hperm.filter (fun i => i = w.id)
    rw [filter_eq_self_of_nodup hids hwid] at hp
    exact hp
  · intro m _ hpid
    simp [c1Outcome, hpid]
  · intro m hm hpid
    have hmc : (c1Outcome w m).matchmakingComplete = false := by
      simp [c1Outcome, hpid, hmcall m hm]
    simp only [checkHostStatus, hmc, Bool.false_eq_true, if_false, h3]
    simp [earliestHost]

/-- C1 witness: two hosts racing (registered at 100 and 200), each
running its verification — the earlier registration "pa" alone remains
registered looking host and alone keeps the initiator flag. -/
theorem leader_election_settles_witness :
    lookingHosts 1000 (settleRound 1000 [exMgrA, exMgrB] exStore).2 = [hostPeer "pa" 100] ∧
    ((settleRound 1000 [exMgrA, exMgrB] exStore).1.filter (fun m => m.isInitiator)).map
      LMgr.peerId = ["pa"] := by
  obtain ⟨h1, h2, h3, h4, h5⟩ := leader_election_settles 1000 exStore [exMgrA, exMgrB]
    (hostPeer "pa" 100) (by decide) (by decide) (by decide) (by decide) (by decide)
    (by decide) (by decide)
  exact ⟨h2, h3⟩
